import Mathlib

/-!
Verification of the precopy tree-comparison tool (src/main.go) against its
natural-language specification.

The embedding models the core of the program:

* `isFileContentIdentical` embeds `IsFileContentIdentical` (main.go lines
  34-78) specialised to regular local files, where each successful
  `f.Read(b)` on a file with `k` remaining bytes returns
  `min(k, chunkSize)` bytes with a nil error when `k > 0`, and `(0, io.EOF)`
  when `k = 0`.  A file is its byte content, a `List Nat`.  The Go code
  discards the read counts and compares the two full 64000-byte buffers,
  which `make` zero-initialises; `padChunk` reproduces that zero padding.
* `compareChunkStep` embeds the error-dispatch of the read loop body
  (main.go lines 64-76) over arbitrary read results, including non-EOF
  read errors, which the pure list model above can not produce.
* `checkDir` embeds `checkDir` (main.go lines 80-119) over snapshot
  directory trees (`FsEntry`), for executions in which every directory
  listing and every `Info()` call succeeds.  The Go function appends notes
  through a pointer; the embedding threads the accumulator explicitly.
* `checkEntriesE` / `precopyCheckE` embed `checkDir` and `precopyCheck`
  (main.go lines 121-134) over trees in which a directory listing may fail
  (`FsEntryE.dir none`); `reportErrorAndExit` (exit status 4) is modelled
  as an `Except.error` carrying the exit status.
* `checkEntriesT` / `isFileContentIdenticalT` are the same two functions
  instrumented with the trace of filesystem operations they perform
  (`FsOp`), used to state the read-only (frame) properties.
-/

namespace Precopy

/-- main.go line 13: `const chunkSize = 64000`. -/
def chunkSize : Nat := 64000

/-- main.go line 14: `const exitStatusCopyUnsafe = 3`. -/
def exitStatusCopyUnsafe : Nat := 3

/-- main.go line 15: `const exitStatusOtherErrors = 4`. -/
def exitStatusOtherErrors : Nat := 4

/-- The three kinds of divergence message produced at main.go lines 95,
108 and 112. -/
inductive NoteKind : Type where
  | typeMismatch : NoteKind
  | sizeMismatch : NoteKind
  | contentMismatch : NoteKind
deriving DecidableEq, Repr

/-- One divergence note.  The Go code stores the formatted message string;
the message is determined by the two paths and the kind (lines 95, 108,
112), which the record keeps in structured form. -/
structure Note : Type where
  src : String
  dst : String
  kind : NoteKind
deriving DecidableEq, Repr

/-- `filepath.Join dir name` for the cleaned paths the walk produces. -/
def joinPath (dir name : String) : String := dir ++ "/" ++ name

/-- Result of one `f.Read` call as dispatched at main.go lines 64-71:
nil error, `io.EOF`, or any other error. -/
inductive ReadErr : Type where
  | noerr : ReadErr
  | eof : ReadErr
  | other : ReadErr
deriving DecidableEq, Repr

/-- What one iteration of the read loop decides to do. -/
inductive LoopOutcome : Type where
  | returnTrue : LoopOutcome
  | returnFalse : LoopOutcome
  | fatalExit : LoopOutcome
  | continueLoop : LoopOutcome
deriving DecidableEq, Repr

/-- The body of the read loop of `IsFileContentIdentical`, main.go lines
64-76: first the error dispatch (`err1 != nil || err2 != nil`, then the
both-EOF, one-EOF and `log.Fatal` cases), then the `bytes.Equal`
comparison of the two full buffers. -/
def compareChunkStep (err1 err2 : ReadErr) (chunksEqual : Bool) : LoopOutcome :=
  if err1 ≠ ReadErr.noerr ∨ err2 ≠ ReadErr.noerr then
    if err1 = ReadErr.eof ∧ err2 = ReadErr.eof then LoopOutcome.returnTrue
    else if err1 = ReadErr.eof ∨ err2 = ReadErr.eof then LoopOutcome.returnFalse
    else LoopOutcome.fatalExit
  else if chunksEqual = false then LoopOutcome.returnFalse
  else LoopOutcome.continueLoop

/-- The 64000-byte buffer `make([]byte, chunkSize)` after a successful
read of the bytes `l` (`l.length ≤ chunkSize`): the bytes read, then the
zero initialisation of the rest.  The Go code discards the read count, so
the whole buffer takes part in `bytes.Equal`. -/
def padChunk (l : List Nat) : List Nat := l ++ List.replicate (chunkSize - l.length) 0

/-- `IsFileContentIdentical`, main.go lines 34-78, for two regular files
given by their remaining byte contents.  A read on a non-empty remainder
returns `min(length, chunkSize)` bytes and no error; a read on an empty
remainder returns `(0, io.EOF)`.  Both errors EOF: return true (line 66).
Exactly one EOF: return false (line 68).  No error: compare the two full
zero-padded buffers (line 74) and loop on the remainders. -/
def isFileContentIdentical (r1 r2 : List Nat) : Bool :=
  match r1, r2 with
  | [], [] => true
  | [], _ :: _ => false
  | _ :: _, [] => false
  | x :: xs, y :: ys =>
    if padChunk ((x :: xs).take chunkSize) = padChunk ((y :: ys).take chunkSize) then
      isFileContentIdentical ((x :: xs).drop chunkSize) ((y :: ys).drop chunkSize)
    else false
termination_by r1.length
decreasing_by
  simp [chunkSize]
  omega

/-- A snapshot of a directory tree in which every listing succeeds: a
regular file with its byte content, or a directory with its entries.
Names are the keys of the listing. -/
inductive FsEntry : Type where
  | file (content : List Nat) : FsEntry
  | dir (entries : List (String × FsEntry)) : FsEntry

/-- A directory listing: what `os.ReadDir` returns, in returned order. -/
abbrev Listing := List (String × FsEntry)

/-- `entry.IsDir()`. -/
def FsEntry.isDir : FsEntry → Bool
  | FsEntry.file _ => false
  | FsEntry.dir _ => true

/-- Lookup in the map built by `readDirIntoMap`, main.go lines 17-27: the
Go loop does `res[entry.Name()] = entry`, so on duplicate names the last
entry wins; the recursion therefore consults the tail first. -/
def lookupEntry {α : Type} (name : String) : List (String × α) → Option α
  | [] => none
  | (n, e) :: rest =>
    match lookupEntry name rest with
    | some e' => some e'
    | none => if n = name then some e else none

/-- `checkDir`, main.go lines 80-119, for executions in which every
directory listing and `Info()` call succeeds.  `notes` is the accumulator
behind `notesPtr`; `src` is the listing of `sourceDir`, `dst` the listing
of `destDir`.  For each source entry found in the destination map: both
directories recurse (line 93); differing `IsDir` appends a type note
(lines 94-97); two files append a size note when `Size()` differs (lines
107-110), and otherwise a content note exactly when
`IsFileContentIdentical` is false (lines 111-115). -/
def checkDir (sourceDir destDir : String) (src dst : Listing) (notes : List Note) : List Note :=
  match src with
  | [] => notes
  | (name, se) :: rest =>
    match lookupEntry name dst with
    | none => checkDir sourceDir destDir rest dst notes
    | some de =>
      match se, de with
      | FsEntry.dir sc, FsEntry.dir dc =>
        checkDir sourceDir destDir rest dst
          (checkDir (joinPath sourceDir name) (joinPath destDir name) sc dc notes)
      | FsEntry.file c1, FsEntry.file c2 =>
        checkDir sourceDir destDir rest dst
          (if c1.length ≠ c2.length then
             notes ++ [⟨joinPath sourceDir name, joinPath destDir name, NoteKind.sizeMismatch⟩]
           else if isFileContentIdentical c1 c2 then notes
           else
             notes ++ [⟨joinPath sourceDir name, joinPath destDir name, NoteKind.contentMismatch⟩])
      | _, _ =>
        checkDir sourceDir destDir rest dst
          (notes ++ [⟨joinPath sourceDir name, joinPath destDir name, NoteKind.typeMismatch⟩])
termination_by sizeOf src
decreasing_by
  all_goals simp
  all_goals omega

/-- The notes one colliding source entry contributes at its own directory
level: nothing when the name is absent from the destination map, the
recursive notes when both sides are directories, and the single
classification note otherwise.  Derived reading of the loop body of
`checkDir`, main.go lines 87-118ic. -/
def pairNotes (sourceDir destDir name : String) (se : FsEntry) (o : Option FsEntry) : List Note :=
  match o with
  | none => []
  | some de =>
    match se, de with
    | FsEntry.dir sc, FsEntry.dir dc =>
      checkDir (joinPath sourceDir name) (joinPath destDir name) sc dc []
    | FsEntry.file c1, FsEntry.file c2 =>
      if c1.length ≠ c2.length then
        [⟨joinPath sourceDir name, joinPath destDir name, NoteKind.sizeMismatch⟩]
      else if isFileContentIdentical c1 c2 then []
      else [⟨joinPath sourceDir name, joinPath destDir name, NoteKind.contentMismatch⟩]
    | _, _ => [⟨joinPath sourceDir name, joinPath destDir name, NoteKind.typeMismatch⟩]

/-- The notes of a whole `checkDir` call, as the concatenation over the
source listing of each colliding pair contribution. -/
def collectNotes (sourceDir destDir : String) (src dst : Listing) : List Note :=
  (src.map (fun p => pairNotes sourceDir destDir p.1 p.2 (lookupEntry p.1 dst))).flatten

/-- A note with the source and destination roles exchanged. -/
def swapNote (n : Note) : Note := ⟨n.dst, n.src, n.kind⟩

/-- A real directory listing: names are unique within their parent (the
spec, section 3, DirectoryEntry), recursively at every level.  This is
what `os.ReadDir` guarantees for actual filesystem trees. -/
def ListingWf (l : Listing) : Prop :=
  (l.map Prod.fst).Nodup ∧ ∀ n es, (n, FsEntry.dir es) ∈ l → ListingWf es
termination_by sizeOf l
decreasing_by
  have h1 := List.sizeOf_lt_of_mem (by assumption : (n, FsEntry.dir es) ∈ l)
  simp at h1
  omega

/-- Follow a non-empty relative path (a list of names) down a listing:
each intermediate name must map to a directory, the last name to any
entry. -/
def resolve : Listing → List String → Option FsEntry
  | _, [] => none
  | l, [n] => lookupEntry n l
  | l, n :: rest =>
    match lookupEntry n l with
    | some (FsEntry.dir es) => resolve es rest
    | _ => none

/-- Append a relative path to a base path with `joinPath`, one component
at a time, exactly as the recursion of `checkDir` builds its paths. -/
def joinAll (base : String) (rel : List String) : String := rel.foldl joinPath base

/-- One filesystem operation the program can ask the operating system to
perform.  The read-only operations are the ones `checkDir` and
`IsFileContentIdentical` actually perform; the mutating ones
(`writeFile`, `mkdir`, `removeEntry`) exist so that their absence from a
trace is a statement about the code, not about the vocabulary. -/
inductive FsOp : Type where
  | readDir (path : String) : FsOp
  | statEntry (path : String) : FsOp
  | openFile (path : String) : FsOp
  | readChunk (path : String) : FsOp
  | closeFile (path : String) : FsOp
  | writeFile (path : String) : FsOp
  | mkdir (path : String) : FsOp
  | removeEntry (path : String) : FsOp
deriving DecidableEq, Repr

/-- Does the operation mutate the filesystem? -/
def FsOp.isMutating : FsOp → Bool
  | FsOp.writeFile _ => true
  | FsOp.mkdir _ => true
  | FsOp.removeEntry _ => true
  | _ => false

/-- The read loop of `IsFileContentIdentical` (main.go lines 57-77)
instrumented with the reads it performs: each iteration issues one
`f1.Read` and one `f2.Read`, including the final iteration that returns
or the one that finds differing buffers. -/
def cmpTraceLoop (p1 p2 : String) (r1 r2 : List Nat) : Bool × List FsOp :=
  match r1, r2 with
  | [], [] => (true, [FsOp.readChunk p1, FsOp.readChunk p2])
  | [], _ :: _ => (false, [FsOp.readChunk p1, FsOp.readChunk p2])
  | _ :: _, [] => (false, [FsOp.readChunk p1, FsOp.readChunk p2])
  | x :: xs, y :: ys =>
    if padChunk ((x :: xs).take chunkSize) = padChunk ((y :: ys).take chunkSize) then
      ((cmpTraceLoop p1 p2 ((x :: xs).drop chunkSize) ((y :: ys).drop chunkSize)).1,
       FsOp.readChunk p1 :: FsOp.readChunk p2 ::
         (cmpTraceLoop p1 p2 ((x :: xs).drop chunkSize) ((y :: ys).drop chunkSize)).2)
    else (false, [FsOp.readChunk p1, FsOp.readChunk p2])
termination_by r1.length
decreasing_by
  simp [chunkSize]
  omega

/-- `IsFileContentIdentical` with its operation trace: open both files
(lines 35, 46), run the read loop, close both on return in deferred
last-in-first-out order (lines 39-44, 50-55). -/
def isFileContentIdenticalT (p1 p2 : String) (c1 c2 : List Nat) : Bool × List FsOp :=
  ((cmpTraceLoop p1 p2 c1 c2).1,
   FsOp.openFile p1 :: FsOp.openFile p2 ::
     (cmpTraceLoop p1 p2 c1 c2).2 ++ [FsOp.closeFile p2, FsOp.closeFile p1])

/-- The per-entry loop of `checkDir` (main.go lines 87-118) instrumented
with its operation trace.  Per colliding pair: a directory pair issues the
two listings of the recursive call and then its loop operations; a file
pair issues the two `Info()` calls (lines 99, 103) and, only when the
sizes agree, the operations of `IsFileContentIdentical`; a type mismatch
issues no operation. -/
def checkEntriesT (sourceDir destDir : String) (src dst : Listing) : List Note × List FsOp :=
  match src with
  | [] => ([], [])
  | (name, se) :: rest =>
    match lookupEntry name dst with
    | none => checkEntriesT sourceDir destDir rest dst
    | some de =>
      match se, de with
      | FsEntry.dir sc, FsEntry.dir dc =>
        ((checkEntriesT (joinPath sourceDir name) (joinPath destDir name) sc dc).1 ++
           (checkEntriesT sourceDir destDir rest dst).1,
         (FsOp.readDir (joinPath destDir name) :: FsOp.readDir (joinPath sourceDir name) ::
            (checkEntriesT (joinPath sourceDir name) (joinPath destDir name) sc dc).2) ++
           (checkEntriesT sourceDir destDir rest dst).2)
      | FsEntry.file c1, FsEntry.file c2 =>
        if c1.length ≠ c2.length then
          ([⟨joinPath sourceDir name, joinPath destDir name, NoteKind.sizeMismatch⟩] ++
             (checkEntriesT sourceDir destDir rest dst).1,
           [FsOp.statEntry (joinPath sourceDir name), FsOp.statEntry (joinPath destDir name)] ++
             (checkEntriesT sourceDir destDir rest dst).2)
        else if isFileContentIdentical c1 c2 then
          ((checkEntriesT sourceDir destDir rest dst).1,
           (FsOp.statEntry (joinPath sourceDir name) :: FsOp.statEntry (joinPath destDir name) ::
              (isFileContentIdenticalT (joinPath sourceDir name) (joinPath destDir name) c1 c2).2) ++
             (checkEntriesT sourceDir destDir rest dst).2)
        else
          ([⟨joinPath sourceDir name, joinPath destDir name, NoteKind.contentMismatch⟩] ++
             (checkEntriesT sourceDir destDir rest dst).1,
           (FsOp.statEntry (joinPath sourceDir name) :: FsOp.statEntry (joinPath destDir name) ::
              (isFileContentIdenticalT (joinPath sourceDir name) (joinPath destDir name) c1 c2).2) ++
             (checkEntriesT sourceDir destDir rest dst).2)
      | _, _ =>
        ([⟨joinPath sourceDir name, joinPath destDir name, NoteKind.typeMismatch⟩] ++
           (checkEntriesT sourceDir destDir rest dst).1,
         (checkEntriesT sourceDir destDir rest dst).2)
termination_by sizeOf src
decreasing_by
  all_goals simp
  all_goals omega

/-- One call of `checkDir` with its operation trace: the destination
listing of `readDirIntoMap` (line 81), the source listing of `os.ReadDir`
(line 82), then the loop. -/
def checkDirT (sourceDir destDir : String) (src dst : Listing) : List Note × List FsOp :=
  ((checkEntriesT sourceDir destDir src dst).1,
   FsOp.readDir destDir :: FsOp.readDir sourceDir ::
     (checkEntriesT sourceDir destDir src dst).2)

/-- A directory tree in which a directory listing may fail:
`dir none` is a directory `os.ReadDir` fails on. -/
inductive FsEntryE : Type where
  | file (content : List Nat) : FsEntryE
  | dir (listing : Option (List (String × FsEntryE))) : FsEntryE

/-- A listing in the failing-listing model. -/
abbrev ListingE := List (String × FsEntryE)

/-- The per-entry loop of `checkDir` (main.go lines 87-118) over trees
with possibly unreadable directories.  `reportErrorAndExit` (lines 29-32,
exit status 4) is modelled as `Except.error exitStatusOtherErrors`,
propagated to the top as `os.Exit` never returns.  For a colliding
directory pair the recursive `checkDir` call first lists the destination
subdirectory through `readDirIntoMap` (line 81) and then the source
subdirectory (line 82); a failure of either aborts everything. -/
def checkEntriesE (sourceDir destDir : String) (src dst : ListingE) (notes : List Note) :
    Except Nat (List Note) :=
  match src with
  | [] => Except.ok notes
  | (name, se) :: rest =>
    match lookupEntry name dst with
    | none => checkEntriesE sourceDir destDir rest dst notes
    | some de =>
      match se, de with
      | FsEntryE.dir sl, FsEntryE.dir dl =>
        match dl with
        | none => Except.error exitStatusOtherErrors
        | some dcs =>
          match sl with
          | none => Except.error exitStatusOtherErrors
          | some scs =>
            match checkEntriesE (joinPath sourceDir name) (joinPath destDir name) scs dcs notes with
            | Except.error e => Except.error e
            | Except.ok notes' => checkEntriesE sourceDir destDir rest dst notes'
      | FsEntryE.file c1, FsEntryE.file c2 =>
        if c1.length ≠ c2.length then
          checkEntriesE sourceDir destDir rest dst
            (notes ++ [⟨joinPath sourceDir name, joinPath destDir name, NoteKind.sizeMismatch⟩])
        else if isFileContentIdentical c1 c2 then
          checkEntriesE sourceDir destDir rest dst notes
        else
          checkEntriesE sourceDir destDir rest dst
            (notes ++ [⟨joinPath sourceDir name, joinPath destDir name, NoteKind.contentMismatch⟩])
      | _, _ =>
        checkEntriesE sourceDir destDir rest dst
          (notes ++ [⟨joinPath sourceDir name, joinPath destDir name, NoteKind.typeMismatch⟩])
termination_by sizeOf src
decreasing_by
  all_goals simp
  omega

/-- The top-level `checkDir` call of `precopyCheck` over the two root
listings: `readDirIntoMap(destDir)` first (line 81), then
`os.ReadDir(sourceDir)` (line 82), then the loop. -/
def checkDirRootE (sourceDir destDir : String) (srcRoot dstRoot : Option ListingE) :
    Except Nat (List Note) :=
  match dstRoot with
  | none => Except.error exitStatusOtherErrors
  | some dst =>
    match srcRoot with
    | none => Except.error exitStatusOtherErrors
    | some src => checkEntriesE sourceDir destDir src dst []

/-- The process exit status of `precopyCheck`, main.go lines 121-134: a
propagated listing failure exits with its status (4); otherwise the run
exits 0 when no notes were accumulated and `exitStatusCopyUnsafe` (3)
when some were. -/
def precopyCheckE (sourceDir destDir : String) (srcRoot dstRoot : Option ListingE) : Nat :=
  match checkDirRootE sourceDir destDir srcRoot dstRoot with
  | Except.error e => e
  | Except.ok notes => if notes.isEmpty then 0 else exitStatusCopyUnsafe

/-! ### Lemmas about `lookupEntry` -/

theorem lookupEntry_cons {α : Type} (name n : String) (e : α) (rest : List (String × α)) :
    lookupEntry name ((n, e) :: rest) =
      match lookupEntry name rest with
      | some e' => some e'
      | none => if n = name then some e else none := rfl

theorem lookupEntry_cons_of_some {α : Type} {name n : String} {e v : α}
    {rest : List (String × α)} (h : lookupEntry name rest = some v) :
    lookupEntry name ((n, e) :: rest) = some v := by
  rw [lookupEntry_cons, h]

theorem lookupEntry_cons_ne {α : Type} {name n : String} (e : α) (rest : List (String × α))
    (h : n ≠ name) : lookupEntry name ((n, e) :: rest) = lookupEntry name rest := by
  rw [lookupEntry_cons]
  cases lookupEntry name rest with
  | none => simp [h]
  | some v => rfl

theorem lookupEntry_eq_none_iff {α : Type} (name : String) (l : List (String × α)) :
    lookupEntry name l = none ↔ name ∉ l.map Prod.fst := by
  induction l with
  | nil => simp [lookupEntry]
  | cons p rest ih =>
    obtain ⟨n, e⟩ := p
    rw [lookupEntry_cons]
    cases h : lookupEntry name rest with
    | some v =>
      simp only [List.map_cons, List.mem_cons]
      constructor
      · intro hc
        exact absurd hc (by simp)
      · intro hc
        exact absurd (h ▸ (ih.2 (fun hm => hc (Or.inr hm)))) (by simp)
    | none =>
      have hnm : name ∉ rest.map Prod.fst := ih.1 h
      by_cases hn : n = name
      · simp [hn, hnm]
      · rw [if_neg hn]
        constructor
        · intro _
          simp only [List.map_cons, List.mem_cons]
          rintro (h1 | h2)
          · exact hn h1.symm
          · exact hnm h2
        · intro _
          rfl

theorem lookupEntry_eq_none_of_not_mem {α : Type} {name : String} {l : List (String × α)}
    (h : name ∉ l.map Prod.fst) : lookupEntry name l = none :=
  (lookupEntry_eq_none_iff name l).2 h

theorem lookupEntry_head {α : Type} {name : String} {e : α} {rest : List (String × α)}
    (h : name ∉ rest.map Prod.fst) : lookupEntry name ((name, e) :: rest) = some e := by
  rw [lookupEntry_cons, lookupEntry_eq_none_of_not_mem h]
  simp

theorem mem_of_lookupEntry_eq_some {α : Type} {name : String} {v : α} {l : List (String × α)}
    (h : lookupEntry name l = some v) : (name, v) ∈ l := by
  induction l with
  | nil => simp [lookupEntry] at h
  | cons p rest ih =>
    obtain ⟨n, e⟩ := p
    rw [lookupEntry_cons] at h
    cases hr : lookupEntry name rest with
    | some w =>
      rw [hr] at h
      cases h
      exact List.mem_cons_of_mem _ (ih hr)
    | none =>
      rw [hr] at h
      by_cases hn : n = name
      · rw [if_pos hn] at h
        cases h
        subst hn
        exact List.mem_cons_self _ _
      · rw [if_neg hn] at h
        cases h

theorem lookupEntry_append_of_some {α : Type} {name : String} {v : α}
    {a b : List (String × α)} (h : lookupEntry name b = some v) :
    lookupEntry name (a ++ b) = some v := by
  induction a with
  | nil => simpa using h
  | cons p rest ih =>
    obtain ⟨n, e⟩ := p
    rw [List.cons_append, lookupEntry_cons, ih]

theorem lookupEntry_append_of_none {α : Type} {name : String}
    {b : List (String × α)} (a : List (String × α)) (h : lookupEntry name b = none) :
    lookupEntry name (a ++ b) = lookupEntry name a := by
  induction a with
  | nil => simpa using h
  | cons p rest ih =>
    obtain ⟨n, e⟩ := p
    rw [List.cons_append, lookupEntry_cons, ih, lookupEntry_cons]

theorem lookupEntry_middle_ne {α : Type} {name n : String} (de : α)
    (d1 d2 : List (String × α)) (h : n ≠ name) :
    lookupEntry name (d1 ++ (n, de) :: d2) = lookupEntry name (d1 ++ d2) := by
  cases hd : lookupEntry name d2 with
  | some v =>
    rw [lookupEntry_append_of_some (lookupEntry_cons_of_some hd),
      lookupEntry_append_of_some hd]
  | none =>
    rw [lookupEntry_append_of_none d1 ((lookupEntry_cons_ne de d2 h).trans hd),
      lookupEntry_append_of_none d1 hd]

/-! ### Lemmas about `isFileContentIdentical` -/

theorem isFileContentIdentical_cons (x y : Nat) (xs ys : List Nat) :
    isFileContentIdentical (x :: xs) (y :: ys) =
      if padChunk ((x :: xs).take chunkSize) = padChunk ((y :: ys).take chunkSize) then
        isFileContentIdentical ((x :: xs).drop chunkSize) ((y :: ys).drop chunkSize)
      else false := by
  simp only [isFileContentIdentical]

theorem contentIdentical_self (r : List Nat) : isFileContentIdentical r r = true := by
  match r with
  | [] => simp [isFileContentIdentical]
  | x :: xs =>
    rw [isFileContentIdentical_cons, if_pos rfl]
    exact contentIdentical_self ((x :: xs).drop chunkSize)
termination_by r.length
decreasing_by
  simp [chunkSize]
  omega

theorem contentIdentical_comm (r1 r2 : List Nat) :
    isFileContentIdentical r1 r2 = isFileContentIdentical r2 r1 := by
  match r1, r2 with
  | [], [] => rfl
  | [], y :: ys => simp [isFileContentIdentical]
  | x :: xs, [] => simp [isFileContentIdentical]
  | x :: xs, y :: ys =>
    rw [isFileContentIdentical_cons, isFileContentIdentical_cons]
    by_cases h : padChunk ((x :: xs).take chunkSize) = padChunk ((y :: ys).take chunkSize)
    · rw [if_pos h, if_pos h.symm]
      exact contentIdentical_comm ((x :: xs).drop chunkSize) ((y :: ys).drop chunkSize)
    · rw [if_neg h, if_neg (fun hh => h hh.symm)]
termination_by r1.length
decreasing_by
  simp [chunkSize]
  omega

/-- The zero-padding confusion of `IsFileContentIdentical`: because the
read counts are discarded and the fresh buffers are zero-initialised, a
file is indistinguishable from the same file extended by zero bytes, as
long as the longer content still fits in one chunk. -/
theorem contentIdentical_zero_extension (c : List Nat) (k : Nat) (hc : c ≠ [])
    (hlen : c.length + k ≤ chunkSize) :
    isFileContentIdentical c (c ++ List.replicate k 0) = true := by
  match c with
  | x :: xs =>
    have hxs : (x :: xs).length ≤ chunkSize := le_trans (Nat.le_add_right _ _) hlen
    have happ : (x :: (xs ++ List.replicate k 0)).length ≤ chunkSize := by
      simp only [List.length_cons, List.length_append, List.length_replicate]
      simp only [List.length_cons] at hlen
      omega
    rw [List.cons_append, isFileContentIdentical_cons]
    have hcond : padChunk ((x :: xs).take chunkSize) =
        padChunk ((x :: (xs ++ List.replicate k 0)).take chunkSize) := by
      rw [List.take_of_length_le hxs, List.take_of_length_le happ]
      show padChunk (x :: xs) = padChunk ((x :: xs) ++ List.replicate k 0)
      simp only [padChunk, List.length_append, List.length_replicate, List.append_assoc]
      rw [← List.replicate_add]
      have h2 : k + (chunkSize - ((x :: xs).length + k)) = chunkSize - (x :: xs).length := by
        simp only [List.length_cons] at hlen ⊢
        omega
      rw [h2]
    rw [if_pos hcond, List.drop_eq_nil_of_le hxs, List.drop_eq_nil_of_le happ]
    simp [isFileContentIdentical]

/-! ### Structure of `checkDir`: accumulator threading and per-pair notes -/

theorem checkDir_nil (sd dd : String) (dst : Listing) (notes : List Note) :
    checkDir sd dd [] dst notes = notes := by
  conv_lhs => rw [checkDir]

theorem checkDir_cons_none (sd dd name : String) (se : FsEntry) (rest dst : Listing)
    (notes : List Note) (hl : lookupEntry name dst = none) :
    checkDir sd dd ((name, se) :: rest) dst notes = checkDir sd dd rest dst notes := by
  conv_lhs => rw [checkDir]
  rw [hl]

theorem checkDir_cons_dirdir (sd dd name : String) (sc dc : Listing) (rest dst : Listing)
    (notes : List Note) (hl : lookupEntry name dst = some (FsEntry.dir dc)) :
    checkDir sd dd ((name, FsEntry.dir sc) :: rest) dst notes =
      checkDir sd dd rest dst
        (checkDir (joinPath sd name) (joinPath dd name) sc dc notes) := by
  conv_lhs => rw [checkDir]
  rw [hl]

theorem checkDir_cons_filefile (sd dd name : String) (c1 c2 : List Nat) (rest dst : Listing)
    (notes : List Note) (hl : lookupEntry name dst = some (FsEntry.file c2)) :
    checkDir sd dd ((name, FsEntry.file c1) :: rest) dst notes =
      checkDir sd dd rest dst
        (if c1.length ≠ c2.length then
           notes ++ [⟨joinPath sd name, joinPath dd name, NoteKind.sizeMismatch⟩]
         else if isFileContentIdentical c1 c2 then notes
         else
           notes ++ [⟨joinPath sd name, joinPath dd name, NoteKind.contentMismatch⟩]) := by
  conv_lhs => rw [checkDir]
  rw [hl]

theorem checkDir_cons_dirfile (sd dd name : String) (sc : Listing) (c2 : List Nat)
    (rest dst : Listing) (notes : List Note)
    (hl : lookupEntry name dst = some (FsEntry.file c2)) :
    checkDir sd dd ((name, FsEntry.dir sc) :: rest) dst notes =
      checkDir sd dd rest dst
        (notes ++ [⟨joinPath sd name, joinPath dd name, NoteKind.typeMismatch⟩]) := by
  conv_lhs => rw [checkDir]
  rw [hl]

theorem checkDir_cons_filedir (sd dd name : String) (c1 : List Nat) (dc : Listing)
    (rest dst : Listing) (notes : List Note)
    (hl : lookupEntry name dst = some (FsEntry.dir dc)) :
    checkDir sd dd ((name, FsEntry.file c1) :: rest) dst notes =
      checkDir sd dd rest dst
        (notes ++ [⟨joinPath sd name, joinPath dd name, NoteKind.typeMismatch⟩]) := by
  conv_lhs => rw [checkDir]
  rw [hl]

theorem collectNotes_nil (sd dd : String) (dst : Listing) :
    collectNotes sd dd [] dst = [] := by
  simp [collectNotes]

theorem collectNotes_cons (sd dd name : String) (se : FsEntry) (rest dst : Listing) :
    collectNotes sd dd ((name, se) :: rest) dst =
      pairNotes sd dd name se (lookupEntry name dst) ++ collectNotes sd dd rest dst := by
  simp [collectNotes]

theorem checkDir_eq_append_collect (src : Listing) (sd dd : String) (dst : Listing)
    (notes : List Note) :
    checkDir sd dd src dst notes = notes ++ collectNotes sd dd src dst := by
  match src with
  | [] => simp [checkDir_nil, collectNotes_nil]
  | (name, se) :: rest =>
    have hrest : ∀ ns : List Note, checkDir sd dd rest dst ns = ns ++ collectNotes sd dd rest dst :=
      fun ns => checkDir_eq_append_collect rest sd dd dst ns
    rw [collectNotes_cons]
    cases hl : lookupEntry name dst with
    | none =>
      rw [checkDir_cons_none sd dd name se rest dst notes hl, hrest notes]
      simp [pairNotes]
    | some de =>
      cases se with
      | dir sc =>
        cases de with
        | dir dc =>
          have hinner := checkDir_eq_append_collect sc (joinPath sd name) (joinPath dd name) dc
          rw [checkDir_cons_dirdir sd dd name sc dc rest dst notes hl, hrest _, hinner notes]
          simp only [pairNotes]
          rw [hinner []]
          simp
        | file c2 =>
          rw [checkDir_cons_dirfile sd dd name sc c2 rest dst notes hl, hrest _]
          simp [pairNotes]
      | file c1 =>
        cases de with
        | dir dc =>
          rw [checkDir_cons_filedir sd dd name c1 dc rest dst notes hl, hrest _]
          simp [pairNotes]
        | file c2 =>
          rw [checkDir_cons_filefile sd dd name c1 c2 rest dst notes hl]
          by_cases hsz : c1.length ≠ c2.length
          · rw [if_pos hsz, hrest _]
            simp [pairNotes, hsz]
          · rw [if_neg hsz]
            by_cases hid : isFileContentIdentical c1 c2
            · rw [if_pos hid, hrest _]
              simp [pairNotes, hsz, hid]
            · rw [if_neg hid, hrest _]
              simp [pairNotes, hsz, hid]
termination_by sizeOf src
decreasing_by
  all_goals simp
  all_goals omega

theorem checkDir_eq_collect (src : Listing) (sd dd : String) (dst : Listing) :
    checkDir sd dd src dst [] = collectNotes sd dd src dst := by
  rw [checkDir_eq_append_collect]
  rfl

theorem checkDir_acc (sd dd : String) (src dst : Listing) (notes : List Note) :
    checkDir sd dd src dst notes = notes ++ checkDir sd dd src dst [] := by
  rw [checkDir_eq_append_collect, checkDir_eq_collect]

theorem collectNotes_append (sd dd : String) (a b dst : Listing) :
    collectNotes sd dd (a ++ b) dst = collectNotes sd dd a dst ++ collectNotes sd dd b dst := by
  simp [collectNotes]

theorem collectNotes_congr (sd dd : String) (src dst1 dst2 : Listing)
    (h : ∀ p, p ∈ src → lookupEntry p.1 dst1 = lookupEntry p.1 dst2) :
    collectNotes sd dd src dst1 = collectNotes sd dd src dst2 := by
  unfold collectNotes
  apply congrArg List.flatten
  apply List.map_congr_left
  intro p hp
  rw [h p hp]

theorem collectNotes_lookup_nil (sd dd : String) (l : Listing) :
    collectNotes sd dd l [] = [] := by
  induction l with
  | nil => simp [collectNotes]
  | cons p rest ih =>
    obtain ⟨n, e⟩ := p
    rw [collectNotes_cons, ih]
    simp [pairNotes, lookupEntry]

/-! ### Well-formed listings -/

theorem ListingWf_iff (l : Listing) :
    ListingWf l ↔ (l.map Prod.fst).Nodup ∧ ∀ n es, (n, FsEntry.dir es) ∈ l → ListingWf es := by
  conv_lhs => rw [ListingWf]

theorem wf_nil : ListingWf [] := by
  rw [ListingWf_iff]
  simp

theorem wf_nodup {l : Listing} (h : ListingWf l) : (l.map Prod.fst).Nodup :=
  ((ListingWf_iff l).1 h).1

theorem wf_of_mem_dir {l : Listing} {n : String} {es : Listing} (h : ListingWf l)
    (hm : (n, FsEntry.dir es) ∈ l) : ListingWf es :=
  ((ListingWf_iff l).1 h).2 n es hm

theorem wf_tail {p : String × FsEntry} {rest : Listing} (h : ListingWf (p :: rest)) :
    ListingWf rest := by
  rw [ListingWf_iff] at h ⊢
  exact ⟨(List.nodup_cons.1 (by simpa using h.1)).2,
    fun n es hm => h.2 n es (List.mem_cons_of_mem p hm)⟩

theorem wf_head_dir {name : String} {sc : Listing} {rest : Listing}
    (h : ListingWf ((name, FsEntry.dir sc) :: rest)) : ListingWf sc :=
  wf_of_mem_dir h (List.mem_cons_self _ _)

theorem wf_head_not_mem {name : String} {e : FsEntry} {rest : Listing}
    (h : ListingWf ((name, e) :: rest)) : name ∉ rest.map Prod.fst := by
  have := wf_nodup h
  simp only [List.map_cons] at this
  exact (List.nodup_cons.1 this).1

theorem wf_middle {d1 d2 : Listing} {name : String} {de : FsEntry}
    (h : ListingWf (d1 ++ (name, de) :: d2)) :
    ListingWf (d1 ++ d2) ∧ name ∉ d1.map Prod.fst ∧ name ∉ d2.map Prod.fst := by
  have hnd := wf_nodup h
  rw [List.map_append, List.map_cons] at hnd
  have hmid := List.nodup_middle.1 hnd
  have hnotin : name ∉ d1.map Prod.fst ++ d2.map Prod.fst := (List.nodup_cons.1 hmid).1
  refine ⟨?_, fun hc => hnotin (List.mem_append_left _ hc),
    fun hc => hnotin (List.mem_append_right _ hc)⟩
  rw [ListingWf_iff]
  constructor
  · rw [List.map_append]
    exact (List.nodup_cons.1 hmid).2
  · intro n es hm
    have hm' : (n, FsEntry.dir es) ∈ d1 ++ (name, de) :: d2 := by
      rcases List.mem_append.1 hm with h1 | h2
      · exact List.mem_append_left _ h1
      · exact List.mem_append_right _ (List.mem_cons_of_mem _ h2)
    exact wf_of_mem_dir h hm'

/-! ### Size arithmetic for the strong inductions -/

theorem sizeOf_listing_append (a b : Listing) : sizeOf (a ++ b) + 1 = sizeOf a + sizeOf b := by
  induction a with
  | nil => simp; omega
  | cons p rest ih =>
    simp [ih]
    omega

theorem one_le_sizeOf_listing (l : Listing) : 1 ≤ sizeOf l := by
  cases l with
  | nil => simp
  | cons p rest => simp; omega

theorem sizeOf_lt_of_mem_listing {p : String × FsEntry} {l : Listing} (h : p ∈ l) :
    sizeOf p.2 < sizeOf l := by
  have h1 := List.sizeOf_lt_of_mem h
  obtain ⟨n, e⟩ := p
  simp at h1 ⊢
  omega

/-! ### Resolving relative paths -/

theorem resolve_single (l : Listing) (n : String) : resolve l [n] = lookupEntry n l := rfl

theorem resolve_cons₂ (l : Listing) (n m : String) (r : List String) :
    resolve l (n :: m :: r) =
      match lookupEntry n l with
      | some (FsEntry.dir es) => resolve es (m :: r)
      | _ => none := rfl

theorem resolve_of_tail {rest : Listing} {rel : List String} {e : FsEntry}
    (p : String × FsEntry) (h : resolve rest rel = some e) :
    resolve (p :: rest) rel = some e := by
  obtain ⟨n, x⟩ := p
  match rel with
  | [] => simp [resolve] at h
  | [m] =>
    rw [resolve_single] at h ⊢
    exact lookupEntry_cons_of_some h
  | m :: m2 :: r =>
    rw [resolve_cons₂] at h ⊢
    cases hm : lookupEntry m rest with
    | none => rw [hm] at h; cases h
    | some v =>
      rw [hm] at h
      rw [lookupEntry_cons_of_some hm]
      exact h

/-! ### Permutation utility -/

theorem perm_rotate_middle {α : Type} (a x b : List α) :
    (a ++ x ++ b).Perm (x ++ (a ++ b)) := by
  have h1 : ((a ++ x) ++ b).Perm ((x ++ a) ++ b) :=
    List.Perm.append_right b List.perm_append_comm
  have h2 : (x ++ a) ++ b = x ++ (a ++ b) := List.append_assoc x a b
  rw [h2] at h1
  exact h1

theorem swapNote_mk (s d : String) (k : NoteKind) :
    swapNote ⟨s, d, k⟩ = ⟨d, s, k⟩ := rfl

/-! ### Every note refers to a colliding pair (towards C5) -/

theorem collect_resolve (k : Nat) : ∀ src : Listing, sizeOf src ≤ k →
    ∀ (sd dd : String) (dst : Listing) (note : Note), ListingWf src →
    note ∈ collectNotes sd dd src dst →
    ∃ rel e1 e2, rel ≠ [] ∧ note.src = joinAll sd rel ∧ note.dst = joinAll dd rel ∧
      resolve src rel = some e1 ∧ resolve dst rel = some e2 := by
  induction k with
  | zero =>
    intro src hk
    exact absurd hk (by have := one_le_sizeOf_listing src; omega)
  | succ k ih =>
    intro src hk sd dd dst note hwf hmem
    match src with
    | [] =>
      rw [collectNotes_nil] at hmem
      cases hmem
    | (name, se) :: rest =>
      have hszrest : sizeOf rest ≤ k := by
        have : sizeOf rest < sizeOf ((name, se) :: rest) := by
          simp
          try omega
        omega
      rw [collectNotes_cons] at hmem
      rcases List.mem_append.1 hmem with hp | hp
      · cases hl : lookupEntry name dst with
        | none =>
          rw [hl] at hp
          simp [pairNotes] at hp
        | some de =>
          rw [hl] at hp
          cases se with
          | dir sc =>
            cases de with
            | dir dc =>
              have hszsc : sizeOf sc ≤ k := by
                have : sizeOf sc < sizeOf ((name, FsEntry.dir sc) :: rest) := by simp; omega
                omega
              simp only [pairNotes] at hp
              rw [checkDir_eq_collect] at hp
              obtain ⟨rel', e1, e2, hne, hs, hd, hr1, hr2⟩ :=
                ih sc hszsc (joinPath sd name) (joinPath dd name) dc note (wf_head_dir hwf) hp
              obtain ⟨m, r', hrel'⟩ := List.exists_cons_of_ne_nil hne
              refine ⟨name :: rel', e1, e2, by simp, ?_, ?_, ?_, ?_⟩
              · simpa [joinAll] using hs
              · simpa [joinAll] using hd
              · subst hrel'
                rw [resolve_cons₂, lookupEntry_head (wf_head_not_mem hwf)]
                exact hr1
              · subst hrel'
                rw [resolve_cons₂, hl]
                exact hr2
            | file c2 =>
              simp only [pairNotes] at hp
              have hnote : note = ⟨joinPath sd name, joinPath dd name, NoteKind.typeMismatch⟩ := by
                simpa using hp
              refine ⟨[name], FsEntry.dir sc, FsEntry.file c2, by simp, ?_, ?_, ?_, ?_⟩
              · rw [hnote]
                simp [joinAll]
              · rw [hnote]
                simp [joinAll]
              · rw [resolve_single]
                exact lookupEntry_head (wf_head_not_mem hwf)
              · rw [resolve_single]
                exact hl
          | file c1 =>
            have hsrc1 : resolve ((name, FsEntry.file c1) :: rest) [name] =
                some (FsEntry.file c1) := by
              rw [resolve_single]
              exact lookupEntry_head (wf_head_not_mem hwf)
            have hdst1 : resolve dst [name] = some de := by
              rw [resolve_single]
              exact hl
            cases de with
            | dir dc =>
              simp only [pairNotes] at hp
              have hnote : note = ⟨joinPath sd name, joinPath dd name, NoteKind.typeMismatch⟩ := by
                simpa using hp
              refine ⟨[name], FsEntry.file c1, FsEntry.dir dc, by simp, ?_, ?_, hsrc1, hdst1⟩
              · rw [hnote]
                simp [joinAll]
              · rw [hnote]
                simp [joinAll]
            | file c2 =>
              simp only [pairNotes] at hp
              have hnote : note.src = joinPath sd name ∧ note.dst = joinPath dd name := by
                split at hp
                · have : note = ⟨joinPath sd name, joinPath dd name, NoteKind.sizeMismatch⟩ := by
                    simpa using hp
                  rw [this]
                  exact ⟨rfl, rfl⟩
                · split at hp
                  · cases hp
                  · have : note =
                        ⟨joinPath sd name, joinPath dd name, NoteKind.contentMismatch⟩ := by
                      simpa using hp
                    rw [this]
                    exact ⟨rfl, rfl⟩
              refine ⟨[name], FsEntry.file c1, FsEntry.file c2, by simp, ?_, ?_, hsrc1, hdst1⟩
              · rw [hnote.1]
                simp [joinAll]
              · rw [hnote.2]
                simp [joinAll]
      · obtain ⟨rel, e1, e2, hne, hs, hd, hr1, hr2⟩ :=
          ih rest hszrest sd dd dst note (wf_tail hwf) hp
        exact ⟨rel, e1, e2, hne, hs, hd, resolve_of_tail (name, se) hr1, hr2⟩

/-! ### Symmetry of the walk up to role swap (towards C4) -/

theorem collect_swap (k : Nat) : ∀ src dst : Listing, sizeOf src + sizeOf dst ≤ k →
    ListingWf src → ListingWf dst → ∀ sd dd : String,
    (collectNotes dd sd dst src).Perm ((collectNotes sd dd src dst).map swapNote) := by
  induction k with
  | zero =>
    intro src dst hk
    exact absurd hk
      (by have := one_le_sizeOf_listing src; have := one_le_sizeOf_listing dst; omega)
  | succ k ih =>
    intro src dst hk hws hwd sd dd
    match src with
    | [] =>
      rw [collectNotes_nil, collectNotes_lookup_nil]
      simp
    | (name, se) :: rest =>
      have hszrest : sizeOf rest < sizeOf ((name, se) :: rest) := by
        simp
        try omega
      rw [collectNotes_cons]
      cases hl : lookupEntry name dst with
      | none =>
        have hnm : name ∉ dst.map Prod.fst := (lookupEntry_eq_none_iff name dst).1 hl
        have hL : collectNotes dd sd dst ((name, se) :: rest) = collectNotes dd sd dst rest := by
          apply collectNotes_congr
          intro q hq
          have hqname : name ≠ q.1 := fun h => hnm (h ▸ List.mem_map_of_mem Prod.fst hq)
          exact lookupEntry_cons_ne se rest hqname
        rw [hL]
        simp only [pairNotes, List.nil_append]
        exact ih rest dst (by omega) (wf_tail hws) hwd sd dd
      | some de =>
        have hmem : (name, de) ∈ dst := mem_of_lookupEntry_eq_some hl
        obtain ⟨d1, d2, hdst⟩ := List.append_of_mem hmem
        subst hdst
        obtain ⟨hwd12, hn1, hn2⟩ := wf_middle hwd
        have hnr : name ∉ rest.map Prod.fst := wf_head_not_mem hws
        have hd2lt : sizeOf d2 < sizeOf ((name, de) :: d2) := by
          simp
          try omega
        have ha1 := sizeOf_listing_append d1 ((name, de) :: d2)
        have ha2 := sizeOf_listing_append d1 d2
        have hdelt : sizeOf de < sizeOf (d1 ++ (name, de) :: d2) :=
          sizeOf_lt_of_mem_listing hmem
        have hsplit : collectNotes dd sd (d1 ++ (name, de) :: d2) ((name, se) :: rest) =
            collectNotes dd sd d1 ((name, se) :: rest) ++
              (pairNotes dd sd name de (lookupEntry name ((name, se) :: rest)) ++
                collectNotes dd sd d2 ((name, se) :: rest)) := by
          rw [collectNotes_append, collectNotes_cons]
        have hhead : lookupEntry name ((name, se) :: rest) = some se := lookupEntry_head hnr
        have hc1 : collectNotes dd sd d1 ((name, se) :: rest) = collectNotes dd sd d1 rest := by
          apply collectNotes_congr
          intro q hq
          have hqname : name ≠ q.1 := fun h => hn1 (h ▸ List.mem_map_of_mem Prod.fst hq)
          exact lookupEntry_cons_ne se rest hqname
        have hc2 : collectNotes dd sd d2 ((name, se) :: rest) = collectNotes dd sd d2 rest := by
          apply collectNotes_congr
          intro q hq
          have hqname : name ≠ q.1 := fun h => hn2 (h ▸ List.mem_map_of_mem Prod.fst hq)
          exact lookupEntry_cons_ne se rest hqname
        have hcr : collectNotes sd dd rest (d1 ++ (name, de) :: d2) =
            collectNotes sd dd rest (d1 ++ d2) := by
          apply collectNotes_congr
          intro p hp
          have hpn : name ≠ p.1 := fun h => hnr (h ▸ List.mem_map_of_mem Prod.fst hp)
          exact lookupEntry_middle_ne de d1 d2 hpn
        have hpair : (pairNotes dd sd name de (some se)).Perm
            ((pairNotes sd dd name se (some de)).map swapNote) := by
          cases se with
          | dir sc =>
            have hsclt : sizeOf sc < sizeOf ((name, FsEntry.dir sc) :: rest) := by
              simp
              try omega
            cases de with
            | dir dc =>
              have hdclt : sizeOf dc + 1 ≤ sizeOf (FsEntry.dir dc) := by
                simp
                omega
              simp only [pairNotes]
              rw [checkDir_eq_collect, checkDir_eq_collect]
              exact ih sc dc (by omega) (wf_head_dir hws) (wf_of_mem_dir hwd hmem)
                (joinPath sd name) (joinPath dd name)
            | file c2 =>
              simp only [pairNotes, List.map_cons, List.map_nil, swapNote_mk]
              exact List.Perm.refl _
          | file c1 =>
            cases de with
            | dir dc =>
              simp only [pairNotes, List.map_cons, List.map_nil, swapNote_mk]
              exact List.Perm.refl _
            | file c2 =>
              simp only [pairNotes]
              by_cases hsz : c1.length ≠ c2.length
              · have hsz' : c2.length ≠ c1.length := fun h => hsz h.symm
                rw [if_pos hsz, if_pos hsz']
                simp only [List.map_cons, List.map_nil, swapNote_mk]
                exact List.Perm.refl _
              · have heq : c1.length = c2.length := not_not.1 hsz
                have hsz' : ¬c2.length ≠ c1.length := fun h => h heq.symm
                rw [if_neg hsz, if_neg hsz', contentIdentical_comm c2 c1]
                by_cases hid : isFileContentIdentical c1 c2
                · rw [if_pos hid, if_pos hid]
                  simp
                · rw [if_neg hid, if_neg hid]
                  simp only [List.map_cons, List.map_nil, swapNote_mk]
                  exact List.Perm.refl _
        rw [hsplit, hhead, hc1, hc2, hcr, List.map_append]
        have step1 : (collectNotes dd sd d1 rest ++
            (pairNotes dd sd name de (some se) ++ collectNotes dd sd d2 rest)).Perm
            (pairNotes dd sd name de (some se) ++
              (collectNotes dd sd d1 rest ++ collectNotes dd sd d2 rest)) := by
          rw [← List.append_assoc]
          exact perm_rotate_middle _ _ _
        have step2 : (pairNotes dd sd name de (some se) ++
            (collectNotes dd sd d1 rest ++ collectNotes dd sd d2 rest)).Perm
            ((pairNotes sd dd name se (some de)).map swapNote ++
              (collectNotes sd dd rest (d1 ++ d2)).map swapNote) := by
          refine List.Perm.append hpair ?_
          rw [← collectNotes_append]
          exact ih rest (d1 ++ d2) (by omega) (wf_tail hws) hwd12 sd dd
        exact step1.trans step2

/-! ### Step lemmas for the traced model -/

theorem cmpTraceLoop_nil_nil (p1 p2 : String) :
    cmpTraceLoop p1 p2 [] [] = (true, [FsOp.readChunk p1, FsOp.readChunk p2]) := by
  conv_lhs => rw [cmpTraceLoop]

theorem cmpTraceLoop_nil_cons (p1 p2 : String) (y : Nat) (ys : List Nat) :
    cmpTraceLoop p1 p2 [] (y :: ys) = (false, [FsOp.readChunk p1, FsOp.readChunk p2]) := by
  conv_lhs => rw [cmpTraceLoop]

theorem cmpTraceLoop_cons_nil (p1 p2 : String) (x : Nat) (xs : List Nat) :
    cmpTraceLoop p1 p2 (x :: xs) [] = (false, [FsOp.readChunk p1, FsOp.readChunk p2]) := by
  conv_lhs => rw [cmpTraceLoop]

theorem cmpTraceLoop_cons_cons (p1 p2 : String) (x y : Nat) (xs ys : List Nat) :
    cmpTraceLoop p1 p2 (x :: xs) (y :: ys) =
      if padChunk ((x :: xs).take chunkSize) = padChunk ((y :: ys).take chunkSize) then
        ((cmpTraceLoop p1 p2 ((x :: xs).drop chunkSize) ((y :: ys).drop chunkSize)).1,
         FsOp.readChunk p1 :: FsOp.readChunk p2 ::
           (cmpTraceLoop p1 p2 ((x :: xs).drop chunkSize) ((y :: ys).drop chunkSize)).2)
      else (false, [FsOp.readChunk p1, FsOp.readChunk p2]) := by
  conv_lhs => rw [cmpTraceLoop]

theorem checkEntriesT_nil (sd dd : String) (dst : Listing) :
    checkEntriesT sd dd [] dst = ([], []) := by
  conv_lhs => rw [checkEntriesT]

theorem checkEntriesT_cons_none (sd dd name : String) (se : FsEntry) (rest dst : Listing)
    (hl : lookupEntry name dst = none) :
    checkEntriesT sd dd ((name, se) :: rest) dst = checkEntriesT sd dd rest dst := by
  conv_lhs => rw [checkEntriesT]
  rw [hl]

theorem checkEntriesT_cons_dirdir (sd dd name : String) (sc dc : Listing) (rest dst : Listing)
    (hl : lookupEntry name dst = some (FsEntry.dir dc)) :
    checkEntriesT sd dd ((name, FsEntry.dir sc) :: rest) dst =
      ((checkEntriesT (joinPath sd name) (joinPath dd name) sc dc).1 ++
         (checkEntriesT sd dd rest dst).1,
       (FsOp.readDir (joinPath dd name) :: FsOp.readDir (joinPath sd name) ::
          (checkEntriesT (joinPath sd name) (joinPath dd name) sc dc).2) ++
         (checkEntriesT sd dd rest dst).2) := by
  conv_lhs => rw [checkEntriesT]
  rw [hl]

theorem checkEntriesT_cons_filefile (sd dd name : String) (c1 c2 : List Nat)
    (rest dst : Listing) (hl : lookupEntry name dst = some (FsEntry.file c2)) :
    checkEntriesT sd dd ((name, FsEntry.file c1) :: rest) dst =
      if c1.length ≠ c2.length then
        ([⟨joinPath sd name, joinPath dd name, NoteKind.sizeMismatch⟩] ++
           (checkEntriesT sd dd rest dst).1,
         [FsOp.statEntry (joinPath sd name), FsOp.statEntry (joinPath dd name)] ++
           (checkEntriesT sd dd rest dst).2)
      else if isFileContentIdentical c1 c2 then
        ((checkEntriesT sd dd rest dst).1,
         (FsOp.statEntry (joinPath sd name) :: FsOp.statEntry (joinPath dd name) ::
            (isFileContentIdenticalT (joinPath sd name) (joinPath dd name) c1 c2).2) ++
           (checkEntriesT sd dd rest dst).2)
      else
        ([⟨joinPath sd name, joinPath dd name, NoteKind.contentMismatch⟩] ++
           (checkEntriesT sd dd rest dst).1,
         (FsOp.statEntry (joinPath sd name) :: FsOp.statEntry (joinPath dd name) ::
            (isFileContentIdenticalT (joinPath sd name) (joinPath dd name) c1 c2).2) ++
           (checkEntriesT sd dd rest dst).2) := by
  conv_lhs => rw [checkEntriesT]
  rw [hl]

theorem checkEntriesT_cons_dirfile (sd dd name : String) (sc : Listing) (c2 : List Nat)
    (rest dst : Listing) (hl : lookupEntry name dst = some (FsEntry.file c2)) :
    checkEntriesT sd dd ((name, FsEntry.dir sc) :: rest) dst =
      ([⟨joinPath sd name, joinPath dd name, NoteKind.typeMismatch⟩] ++
         (checkEntriesT sd dd rest dst).1,
       (checkEntriesT sd dd rest dst).2) := by
  conv_lhs => rw [checkEntriesT]
  rw [hl]

theorem checkEntriesT_cons_filedir (sd dd name : String) (c1 : List Nat) (dc : Listing)
    (rest dst : Listing) (hl : lookupEntry name dst = some (FsEntry.dir dc)) :
    checkEntriesT sd dd ((name, FsEntry.file c1) :: rest) dst =
      ([⟨joinPath sd name, joinPath dd name, NoteKind.typeMismatch⟩] ++
         (checkEntriesT sd dd rest dst).1,
       (checkEntriesT sd dd rest dst).2) := by
  conv_lhs => rw [checkEntriesT]
  rw [hl]

/-! ### The traces contain no mutating operation -/

theorem cmpTraceLoop_ops (p1 p2 : String) (r1 r2 : List Nat) :
    ∀ op ∈ (cmpTraceLoop p1 p2 r1 r2).2, op.isMutating = false := by
  match r1, r2 with
  | [], [] =>
    rw [cmpTraceLoop_nil_nil]
    intro op hop
    simp only [List.mem_cons, List.not_mem_nil, or_false] at hop
    rcases hop with h | h <;> subst h <;> rfl
  | [], y :: ys =>
    rw [cmpTraceLoop_nil_cons]
    intro op hop
    simp only [List.mem_cons, List.not_mem_nil, or_false] at hop
    rcases hop with h | h <;> subst h <;> rfl
  | x :: xs, [] =>
    rw [cmpTraceLoop_cons_nil]
    intro op hop
    simp only [List.mem_cons, List.not_mem_nil, or_false] at hop
    rcases hop with h | h <;> subst h <;> rfl
  | x :: xs, y :: ys =>
    rw [cmpTraceLoop_cons_cons]
    by_cases hc : padChunk ((x :: xs).take chunkSize) = padChunk ((y :: ys).take chunkSize)
    · rw [if_pos hc]
      intro op hop
      simp only [List.mem_cons] at hop
      rcases hop with h | h | h
      · subst h
        rfl
      · subst h
        rfl
      · exact cmpTraceLoop_ops p1 p2 ((x :: xs).drop chunkSize) ((y :: ys).drop chunkSize) op h
    · rw [if_neg hc]
      intro op hop
      simp only [List.mem_cons, List.not_mem_nil, or_false] at hop
      rcases hop with h | h <;> subst h <;> rfl
termination_by r1.length
decreasing_by
  simp [chunkSize]
  omega

theorem isFileContentIdenticalT_ops (p1 p2 : String) (c1 c2 : List Nat) :
    ∀ op ∈ (isFileContentIdenticalT p1 p2 c1 c2).2, op.isMutating = false := by
  intro op hop
  simp only [isFileContentIdenticalT, List.mem_cons, List.mem_append, List.not_mem_nil,
    or_false] at hop
  rcases hop with (h | h | h) | h | h
  · subst h
    rfl
  · subst h
    rfl
  · exact cmpTraceLoop_ops p1 p2 c1 c2 op h
  · subst h
    rfl
  · subst h
    rfl

theorem checkEntriesT_ops (k : Nat) : ∀ src : Listing, sizeOf src ≤ k →
    ∀ (sd dd : String) (dst : Listing), ∀ op ∈ (checkEntriesT sd dd src dst).2,
    op.isMutating = false := by
  induction k with
  | zero =>
    intro src hk
    exact absurd hk (by have := one_le_sizeOf_listing src; omega)
  | succ k ih =>
    intro src hk sd dd dst op hop
    match src with
    | [] =>
      rw [checkEntriesT_nil] at hop
      cases hop
    | (name, se) :: rest =>
      have hszrest : sizeOf rest ≤ k := by
        have : sizeOf rest < sizeOf ((name, se) :: rest) := by
          simp
          try omega
        omega
      cases hl : lookupEntry name dst with
      | none =>
        rw [checkEntriesT_cons_none sd dd name se rest dst hl] at hop
        exact ih rest hszrest sd dd dst op hop
      | some de =>
        cases se with
        | dir sc =>
          have hszsc : sizeOf sc ≤ k := by
            have : sizeOf sc < sizeOf ((name, FsEntry.dir sc) :: rest) := by
              simp
              try omega
            omega
          cases de with
          | dir dc =>
            rw [checkEntriesT_cons_dirdir sd dd name sc dc rest dst hl] at hop
            simp only [List.mem_append, List.mem_cons] at hop
            rcases hop with (h | h | h) | h
            · subst h
              rfl
            · subst h
              rfl
            · exact ih sc hszsc (joinPath sd name) (joinPath dd name) dc op h
            · exact ih rest hszrest sd dd dst op h
          | file c2 =>
            rw [checkEntriesT_cons_dirfile sd dd name sc c2 rest dst hl] at hop
            simp only [List.mem_append, List.mem_cons, List.not_mem_nil, false_or] at hop
            exact ih rest hszrest sd dd dst op hop
        | file c1 =>
          cases de with
          | dir dc =>
            rw [checkEntriesT_cons_filedir sd dd name c1 dc rest dst hl] at hop
            simp only [List.mem_append, List.mem_cons, List.not_mem_nil, false_or] at hop
            exact ih rest hszrest sd dd dst op hop
          | file c2 =>
            rw [checkEntriesT_cons_filefile sd dd name c1 c2 rest dst hl] at hop
            by_cases hsz : c1.length ≠ c2.length
            · rw [if_pos hsz] at hop
              simp only [List.mem_append, List.mem_cons, List.not_mem_nil, or_false] at hop
              rcases hop with (h | h) | h
              · subst h
                rfl
              · subst h
                rfl
              · exact ih rest hszrest sd dd dst op h
            · rw [if_neg hsz] at hop
              by_cases hid : isFileContentIdentical c1 c2
              · rw [if_pos hid] at hop
                simp only [List.mem_append, List.mem_cons] at hop
                rcases hop with (h | h | h) | h
                · subst h
                  rfl
                · subst h
                  rfl
                · exact isFileContentIdenticalT_ops (joinPath sd name) (joinPath dd name)
                    c1 c2 op h
                · exact ih rest hszrest sd dd dst op h
              · rw [if_neg hid] at hop
                simp only [List.mem_append, List.mem_cons] at hop
                rcases hop with (h | h | h) | h
                · subst h
                  rfl
                · subst h
                  rfl
                · exact isFileContentIdenticalT_ops (joinPath sd name) (joinPath dd name)
                    c1 c2 op h
                · exact ih rest hszrest sd dd dst op h

theorem checkDirT_ops (sd dd : String) (src dst : Listing) :
    ∀ op ∈ (checkDirT sd dd src dst).2, op.isMutating = false := by
  intro op hop
  simp only [checkDirT, List.mem_cons] at hop
  rcases hop with h | h | h
  · subst h
    rfl
  · subst h
    rfl
  · exact checkEntriesT_ops (sizeOf src) src (le_refl _) sd dd dst op h

theorem foldl_of_nonmutating {σ : Type} (applyOp : σ → FsOp → σ)
    (h : ∀ (s : σ) (op : FsOp), op.isMutating = false → applyOp s op = s) :
    ∀ ops : List FsOp, (∀ op ∈ ops, op.isMutating = false) →
    ∀ s : σ, ops.foldl applyOp s = s := by
  intro ops
  induction ops with
  | nil =>
    intro _ s
    rfl
  | cons op rest ih =>
    intro hall s
    rw [List.foldl_cons, h s op (hall op (List.mem_cons_self _ _))]
    exact ih (fun o ho => hall o (List.mem_cons_of_mem _ ho)) s

/-! ### The traced functions compute the same results as the plain ones -/

theorem cmpTraceLoop_fst (p1 p2 : String) (r1 r2 : List Nat) :
    (cmpTraceLoop p1 p2 r1 r2).1 = isFileContentIdentical r1 r2 := by
  match r1, r2 with
  | [], [] =>
    rw [cmpTraceLoop_nil_nil]
    simp [isFileContentIdentical]
  | [], y :: ys =>
    rw [cmpTraceLoop_nil_cons]
    simp [isFileContentIdentical]
  | x :: xs, [] =>
    rw [cmpTraceLoop_cons_nil]
    simp [isFileContentIdentical]
  | x :: xs, y :: ys =>
    rw [cmpTraceLoop_cons_cons, isFileContentIdentical_cons]
    by_cases hc : padChunk ((x :: xs).take chunkSize) = padChunk ((y :: ys).take chunkSize)
    · rw [if_pos hc, if_pos hc]
      exact cmpTraceLoop_fst p1 p2 ((x :: xs).drop chunkSize) ((y :: ys).drop chunkSize)
    · rw [if_neg hc, if_neg hc]
termination_by r1.length
decreasing_by
  simp [chunkSize]
  omega

theorem isFileContentIdenticalT_fst (p1 p2 : String) (c1 c2 : List Nat) :
    (isFileContentIdenticalT p1 p2 c1 c2).1 = isFileContentIdentical c1 c2 := by
  rw [isFileContentIdenticalT]
  exact cmpTraceLoop_fst p1 p2 c1 c2

theorem checkEntriesT_fst (k : Nat) : ∀ src : Listing, sizeOf src ≤ k →
    ∀ (sd dd : String) (dst : Listing),
    (checkEntriesT sd dd src dst).1 = checkDir sd dd src dst [] := by
  induction k with
  | zero =>
    intro src hk
    exact absurd hk (by have := one_le_sizeOf_listing src; omega)
  | succ k ih =>
    intro src hk sd dd dst
    match src with
    | [] =>
      rw [checkEntriesT_nil, checkDir_nil]
    | (name, se) :: rest =>
      have hszrest : sizeOf rest ≤ k := by
        have : sizeOf rest < sizeOf ((name, se) :: rest) := by
          simp
          try omega
        omega
      cases hl : lookupEntry name dst with
      | none =>
        rw [checkEntriesT_cons_none sd dd name se rest dst hl,
          checkDir_cons_none sd dd name se rest dst [] hl]
        exact ih rest hszrest sd dd dst
      | some de =>
        cases se with
        | dir sc =>
          cases de with
          | dir dc =>
            have hszsc : sizeOf sc ≤ k := by
              have : sizeOf sc < sizeOf ((name, FsEntry.dir sc) :: rest) := by
                simp
                try omega
              omega
            rw [checkEntriesT_cons_dirdir sd dd name sc dc rest dst hl,
              checkDir_cons_dirdir sd dd name sc dc rest dst [] hl, checkDir_acc]
            rw [ih sc hszsc (joinPath sd name) (joinPath dd name) dc,
              ih rest hszrest sd dd dst]
          | file c2 =>
            rw [checkEntriesT_cons_dirfile sd dd name sc c2 rest dst hl,
              checkDir_cons_dirfile sd dd name sc c2 rest dst [] hl, checkDir_acc]
            rw [ih rest hszrest sd dd dst]
            simp
        | file c1 =>
          cases de with
          | dir dc =>
            rw [checkEntriesT_cons_filedir sd dd name c1 dc rest dst hl,
              checkDir_cons_filedir sd dd name c1 dc rest dst [] hl, checkDir_acc]
            rw [ih rest hszrest sd dd dst]
            simp
          | file c2 =>
            rw [checkEntriesT_cons_filefile sd dd name c1 c2 rest dst hl,
              checkDir_cons_filefile sd dd name c1 c2 rest dst [] hl, checkDir_acc]
            rw [ih rest hszrest sd dd dst]
            by_cases hsz : c1.length ≠ c2.length
            · rw [if_pos hsz, if_pos hsz]
              simp
            · rw [if_neg hsz, if_neg hsz]
              by_cases hid : isFileContentIdentical c1 c2
              · rw [if_pos hid, if_pos hid]
                simp
              · rw [if_neg hid, if_neg hid]
                simp

theorem checkDirT_fst (sd dd : String) (src dst : Listing) :
    (checkDirT sd dd src dst).1 = checkDir sd dd src dst [] := by
  rw [checkDirT]
  exact checkEntriesT_fst (sizeOf src) src (le_refl _) sd dd dst

/-! ### The failing-listing model: every abort carries exit status 4 -/

theorem one_le_sizeOf_listingE (l : ListingE) : 1 ≤ sizeOf l := by
  cases l with
  | nil => simp
  | cons p rest => simp; omega

theorem checkEntriesE_nil (sd dd : String) (dst : ListingE) (notes : List Note) :
    checkEntriesE sd dd [] dst notes = Except.ok notes := by
  conv_lhs => rw [checkEntriesE]

theorem checkEntriesE_cons_none (sd dd name : String) (se : FsEntryE) (rest dst : ListingE)
    (notes : List Note) (hl : lookupEntry name dst = none) :
    checkEntriesE sd dd ((name, se) :: rest) dst notes =
      checkEntriesE sd dd rest dst notes := by
  conv_lhs => rw [checkEntriesE]
  rw [hl]

theorem checkEntriesE_cons_dir_dstfail (sd dd name : String) (sl : Option ListingE)
    (rest dst : ListingE) (notes : List Note)
    (hl : lookupEntry name dst = some (FsEntryE.dir none)) :
    checkEntriesE sd dd ((name, FsEntryE.dir sl) :: rest) dst notes =
      Except.error exitStatusOtherErrors := by
  conv_lhs => rw [checkEntriesE]
  rw [hl]

theorem checkEntriesE_cons_dir_srcfail (sd dd name : String) (dcs : ListingE)
    (rest dst : ListingE) (notes : List Note)
    (hl : lookupEntry name dst = some (FsEntryE.dir (some dcs))) :
    checkEntriesE sd dd ((name, FsEntryE.dir none) :: rest) dst notes =
      Except.error exitStatusOtherErrors := by
  conv_lhs => rw [checkEntriesE]
  rw [hl]

theorem checkEntriesE_cons_dir_ok (sd dd name : String) (scs dcs : ListingE)
    (rest dst : ListingE) (notes : List Note)
    (hl : lookupEntry name dst = some (FsEntryE.dir (some dcs))) :
    checkEntriesE sd dd ((name, FsEntryE.dir (some scs)) :: rest) dst notes =
      match checkEntriesE (joinPath sd name) (joinPath dd name) scs dcs notes with
      | Except.error e => Except.error e
      | Except.ok notes' => checkEntriesE sd dd rest dst notes' := by
  conv_lhs => rw [checkEntriesE]
  rw [hl]

theorem checkEntriesE_cons_filefile (sd dd name : String) (c1 c2 : List Nat)
    (rest dst : ListingE) (notes : List Note)
    (hl : lookupEntry name dst = some (FsEntryE.file c2)) :
    checkEntriesE sd dd ((name, FsEntryE.file c1) :: rest) dst notes =
      (if c1.length ≠ c2.length then
         checkEntriesE sd dd rest dst
           (notes ++ [⟨joinPath sd name, joinPath dd name, NoteKind.sizeMismatch⟩])
       else if isFileContentIdentical c1 c2 then
         checkEntriesE sd dd rest dst notes
       else
         checkEntriesE sd dd rest dst
           (notes ++ [⟨joinPath sd name, joinPath dd name, NoteKind.contentMismatch⟩])) := by
  conv_lhs => rw [checkEntriesE]
  rw [hl]

theorem checkEntriesE_cons_dirfile (sd dd name : String) (sl : Option ListingE)
    (c2 : List Nat) (rest dst : ListingE) (notes : List Note)
    (hl : lookupEntry name dst = some (FsEntryE.file c2)) :
    checkEntriesE sd dd ((name, FsEntryE.dir sl) :: rest) dst notes =
      checkEntriesE sd dd rest dst
        (notes ++ [⟨joinPath sd name, joinPath dd name, NoteKind.typeMismatch⟩]) := by
  conv_lhs => rw [checkEntriesE]
  rw [hl]

theorem checkEntriesE_cons_filedir (sd dd name : String) (c1 : List Nat)
    (dl : Option ListingE) (rest dst : ListingE) (notes : List Note)
    (hl : lookupEntry name dst = some (FsEntryE.dir dl)) :
    checkEntriesE sd dd ((name, FsEntryE.file c1) :: rest) dst notes =
      checkEntriesE sd dd rest dst
        (notes ++ [⟨joinPath sd name, joinPath dd name, NoteKind.typeMismatch⟩]) := by
  conv_lhs => rw [checkEntriesE]
  rw [hl]

theorem checkEntriesE_error_code (k : Nat) : ∀ src : ListingE, sizeOf src ≤ k →
    ∀ (sd dd : String) (dst : ListingE) (notes : List Note) (e : Nat),
    checkEntriesE sd dd src dst notes = Except.error e → e = exitStatusOtherErrors := by
  induction k with
  | zero =>
    intro src hk
    exact absurd hk (by have := one_le_sizeOf_listingE src; omega)
  | succ k ih =>
    intro src hk sd dd dst notes e herr
    match src with
    | [] =>
      rw [checkEntriesE_nil] at herr
      cases herr
    | (name, se) :: rest =>
      have hszrest : sizeOf rest ≤ k := by
        have : sizeOf rest < sizeOf ((name, se) :: rest) := by
          simp
          try omega
        omega
      cases hl : lookupEntry name dst with
      | none =>
        rw [checkEntriesE_cons_none sd dd name se rest dst notes hl] at herr
        exact ih rest hszrest sd dd dst notes e herr
      | some de =>
        cases se with
        | dir sl =>
          cases de with
          | dir dl =>
            cases dl with
            | none =>
              rw [checkEntriesE_cons_dir_dstfail sd dd name sl rest dst notes hl] at herr
              cases herr
              rfl
            | some dcs =>
              cases sl with
              | none =>
                rw [checkEntriesE_cons_dir_srcfail sd dd name dcs rest dst notes hl] at herr
                cases herr
                rfl
              | some scs =>
                have hszscs : sizeOf scs ≤ k := by
                  have : sizeOf scs <
                      sizeOf ((name, FsEntryE.dir (some scs)) :: rest) := by
                    simp
                    try omega
                  omega
                rw [checkEntriesE_cons_dir_ok sd dd name scs dcs rest dst notes hl] at herr
                cases hin : checkEntriesE (joinPath sd name) (joinPath dd name)
                    scs dcs notes with
                | error e2 =>
                  rw [hin] at herr
                  cases herr
                  exact ih scs hszscs (joinPath sd name) (joinPath dd name) dcs notes e hin
                | ok notes' =>
                  rw [hin] at herr
                  exact ih rest hszrest sd dd dst notes' e herr
          | file c2 =>
            rw [checkEntriesE_cons_dirfile sd dd name sl c2 rest dst notes hl] at herr
            exact ih rest hszrest sd dd dst _ e herr
        | file c1 =>
          cases de with
          | dir dl =>
            rw [checkEntriesE_cons_filedir sd dd name c1 dl rest dst notes hl] at herr
            exact ih rest hszrest sd dd dst _ e herr
          | file c2 =>
            rw [checkEntriesE_cons_filefile sd dd name c1 c2 rest dst notes hl] at herr
            by_cases hsz : c1.length ≠ c2.length
            · rw [if_pos hsz] at herr
              exact ih rest hszrest sd dd dst _ e herr
            · rw [if_neg hsz] at herr
              by_cases hid : isFileContentIdentical c1 c2
              · rw [if_pos hid] at herr
                exact ih rest hszrest sd dd dst _ e herr
              · rw [if_neg hid] at herr
                exact ih rest hszrest sd dd dst _ e herr

theorem precopyCheckE_dstroot_fail (sd dd : String) (srcRoot : Option ListingE) :
    precopyCheckE sd dd srcRoot none = exitStatusOtherErrors := rfl

theorem precopyCheckE_srcroot_fail (sd dd : String) (dstRoot : Option ListingE) :
    precopyCheckE sd dd none dstRoot = exitStatusOtherErrors := by
  cases dstRoot with
  | none => rfl
  | some dst => rfl

theorem precopyCheckE_unsafe_iff (sd dd : String) (src dst : ListingE) :
    precopyCheckE sd dd (some src) (some dst) = exitStatusCopyUnsafe ↔
      ∃ notes, checkEntriesE sd dd src dst [] = Except.ok notes ∧ notes ≠ [] := by
  have hpre : precopyCheckE sd dd (some src) (some dst) =
      match checkEntriesE sd dd src dst [] with
      | Except.error e => e
      | Except.ok notes => if notes.isEmpty then 0 else exitStatusCopyUnsafe := rfl
  rw [hpre]
  cases h : checkEntriesE sd dd src dst [] with
  | error e =>
    have he : e = exitStatusOtherErrors :=
      checkEntriesE_error_code (sizeOf src) src (le_refl _) sd dd dst [] e h
    constructor
    · intro hc
      exact absurd (he ▸ hc) (by simp [exitStatusOtherErrors, exitStatusCopyUnsafe])
    · rintro ⟨notes, hn, _⟩
      cases hn
  | ok notes =>
    have hred : (match (Except.ok notes : Except Nat (List Note)) with
        | Except.error e => e
        | Except.ok notes => if notes.isEmpty then 0 else exitStatusCopyUnsafe) =
        (if notes.isEmpty then 0 else exitStatusCopyUnsafe) := rfl
    rw [hred]
    by_cases hne : notes.isEmpty
    · rw [if_pos hne]
      constructor
      · intro hc
        exact absurd hc (by simp [ exitStatusCopyUnsafe])
      · rintro ⟨notes2, hn2, hne2⟩
        cases hn2
        exact absurd (List.isEmpty_iff.1 hne) hne2
    · rw [if_neg hne]
      exact ⟨fun _ => ⟨notes, rfl, fun hc => hne (by rw [hc]; rfl)⟩, fun _ => rfl⟩

/-! ### Shared witness helpers -/

theorem wf_singleton_file (n : String) (c : List Nat) : ListingWf [(n, FsEntry.file c)] := by
  rw [ListingWf_iff]
  refine ⟨by simp, ?_⟩
  intro m es hm
  simp only [List.mem_singleton, Prod.mk.injEq] at hm
  exact absurd hm.2 (by intro h; cases h)

/-! ### Claim theorems -/

/-- Claim C1: the specification demands that for every pair of files whose
byte lengths differ, `IsFileContentIdentical` returns false.  The code
violates this: on the one-byte file `0x61` against the two-byte file
`0x61 0x00` it returns true, because the read counts are discarded and
both zero-initialised 64000-byte buffers compare equal, after which both
streams reach end-of-data in the same iteration.  This theorem evaluates
the embedded code at that failing input. -/
theorem contentIdentical_true_on_unequal_lengths :
    ([97] : List Nat).length ≠ ([97, 0] : List Nat).length ∧
      isFileContentIdentical [97] [97, 0] = true := by
  constructor
  · decide
  · have h := contentIdentical_zero_extension [97] 1 (by decide)
      (by simp [chunkSize])
    simpa using h

/-- Claim C2, counterexample: the claim says a read error other than
end-of-data on either stream always aborts the program.  In the loop body,
a non-EOF error on stream 1 while stream 2 reports EOF in the same
iteration takes the one-EOF branch and returns false instead of calling
`log.Fatal`. -/
theorem compareChunkStep_error_masked_by_eof :
    compareChunkStep ReadErr.other ReadErr.eof true = LoopOutcome.returnFalse ∧
      compareChunkStep ReadErr.eof ReadErr.other true = LoopOutcome.returnFalse ∧
      LoopOutcome.returnFalse ≠ LoopOutcome.fatalExit := by
  decide

/-- Claim C2, amended: a read error other than end-of-data on a stream is
fatal (reaches `log.Fatal`) exactly when the other stream did not report
end-of-data in the same iteration; when the other stream reports
end-of-data, the function instead returns false, discarding the error. -/
theorem compareChunkStep_fatal_unless_other_eof :
    ∀ (e : ReadErr) (b : Bool),
      (e ≠ ReadErr.eof →
        compareChunkStep ReadErr.other e b = LoopOutcome.fatalExit ∧
          compareChunkStep e ReadErr.other b = LoopOutcome.fatalExit) ∧
      compareChunkStep ReadErr.other ReadErr.eof b = LoopOutcome.returnFalse ∧
      compareChunkStep ReadErr.eof ReadErr.other b = LoopOutcome.returnFalse := by
  intro e b
  constructor
  · intro he
    cases e with
    | eof => exact absurd rfl he
    | noerr => cases b <;> exact ⟨by decide, by decide⟩
    | other => cases b <;> exact ⟨by decide, by decide⟩
  · cases b <;> exact ⟨by decide, by decide⟩

theorem compareChunkStep_fatal_unless_other_eof_witness :
    ReadErr.noerr ≠ ReadErr.eof ∧
      compareChunkStep ReadErr.other ReadErr.noerr true = LoopOutcome.fatalExit ∧
      compareChunkStep ReadErr.noerr ReadErr.other true = LoopOutcome.fatalExit := by
  refine ⟨by decide, ?_⟩
  exact (compareChunkStep_fatal_unless_other_eof ReadErr.noerr true).1 (by decide)

/-- Claim C3: for a colliding pair of files, when the sizes differ the
walk appends exactly the size-mismatch note and the result does not depend
on the file contents (the right-hand side mentions only the lengths), and
the operation trace shows only the two `Info()` calls, with no open and no
read of either file; only when the sizes agree is the streaming
comparison run, and then a content-mismatch note is appended exactly when
`IsFileContentIdentical` is false. -/
theorem checkDir_size_precheck :
    ∀ (sd dd name : String) (c1 c2 : List Nat) (rest dst : Listing) (acc : List Note),
      lookupEntry name dst = some (FsEntry.file c2) →
      (checkDir sd dd ((name, FsEntry.file c1) :: rest) dst acc =
        checkDir sd dd rest dst (acc ++
          (if c1.length ≠ c2.length then
             [⟨joinPath sd name, joinPath dd name, NoteKind.sizeMismatch⟩]
           else if isFileContentIdentical c1 c2 then []
           else [⟨joinPath sd name, joinPath dd name, NoteKind.contentMismatch⟩]))) ∧
      (c1.length ≠ c2.length →
        (checkDirT sd dd [(name, FsEntry.file c1)] [(name, FsEntry.file c2)]).2 =
          [FsOp.readDir dd, FsOp.readDir sd, FsOp.statEntry (joinPath sd name),
           FsOp.statEntry (joinPath dd name)]) := by
  intro sd dd name c1 c2 rest dst acc hl
  constructor
  · rw [checkDir_cons_filefile sd dd name c1 c2 rest dst acc hl]
    by_cases hsz : c1.length ≠ c2.length
    · rw [if_pos hsz, if_pos hsz]
    · rw [if_neg hsz, if_neg hsz]
      by_cases hid : isFileContentIdentical c1 c2
      · rw [if_pos hid, if_pos hid]
        simp
      · rw [if_neg hid, if_neg hid]
  · intro hsz
    have hl' : lookupEntry name [(name, FsEntry.file c2)] = some (FsEntry.file c2) :=
      lookupEntry_head (by simp)
    simp only [checkDirT]
    rw [checkEntriesT_cons_filefile sd dd name c1 c2 [] [(name, FsEntry.file c2)] hl',
      if_pos hsz, checkEntriesT_nil]
    simp

theorem checkDir_size_precheck_witness :
    lookupEntry "a" [("a", FsEntry.file ([] : List Nat))] = some (FsEntry.file []) ∧
      ([0] : List Nat).length ≠ ([] : List Nat).length ∧
      checkDir "s" "d" [("a", FsEntry.file [0])] [("a", FsEntry.file [])] [] =
        checkDir "s" "d" [] [("a", FsEntry.file [])]
          [⟨joinPath "s" "a", joinPath "d" "a", NoteKind.sizeMismatch⟩] ∧
      (checkDirT "s" "d" [("a", FsEntry.file [0])] [("a", FsEntry.file [])]).2 =
        [FsOp.readDir "d", FsOp.readDir "s", FsOp.statEntry (joinPath "s" "a"),
         FsOp.statEntry (joinPath "d" "a")] := by
  have hl : lookupEntry "a" [("a", FsEntry.file ([] : List Nat))] =
      some (FsEntry.file []) := rfl
  have hne : ([0] : List Nat).length ≠ ([] : List Nat).length := by decide
  have h := checkDir_size_precheck "s" "d" "a" [0] [] [] [("a", FsEntry.file [])] [] hl
  refine ⟨hl, hne, ?_, h.2 hne⟩
  have h1 := h.1
  simpa using h1

/-- Claim C4: the walk is symmetric up to role swap.  For well-formed
listings (unique names at every level, as real directory listings
guarantee), the notes of `checkDir(B, A)` are a permutation of the notes
of `checkDir(A, B)` with source and destination paths exchanged in every
note; in particular both directions flag exactly the same multiset of
colliding paths, with the same kinds. -/
theorem checkDir_swap_symmetry :
    ∀ (sd dd : String) (src dst : Listing), ListingWf src → ListingWf dst →
      (checkDir dd sd dst src []).Perm ((checkDir sd dd src dst []).map swapNote) := by
  intro sd dd src dst hws hwd
  rw [checkDir_eq_collect, checkDir_eq_collect]
  exact collect_swap (sizeOf src + sizeOf dst) src dst (le_refl _) hws hwd sd dd

theorem checkDir_swap_symmetry_witness :
    ListingWf [("a", FsEntry.file [0])] ∧ ListingWf [("a", FsEntry.file [])] ∧
      (checkDir "d" "s" [("a", FsEntry.file [])] [("a", FsEntry.file [0])] []).Perm
        ((checkDir "s" "d" [("a", FsEntry.file [0])] [("a", FsEntry.file [])] []).map
          swapNote) := by
  have h1 := wf_singleton_file "a" [0]
  have h2 := wf_singleton_file "a" []
  exact ⟨h1, h2, checkDir_swap_symmetry "s" "d" [("a", FsEntry.file [0])]
    [("a", FsEntry.file [])] h1 h2⟩

/-- Claim C5: every note the walk emits refers to one colliding pair: its
two paths are the source root and the destination root extended by one and
the same non-empty relative path, and that relative path resolves to an
existing entry in both trees.  Consequently an entry present on only one
side is never mentioned by any note. -/
theorem checkDir_notes_are_collisions :
    ∀ (sd dd : String) (src dst : Listing) (note : Note), ListingWf src →
      note ∈ checkDir sd dd src dst [] →
      ∃ rel e1 e2, rel ≠ [] ∧ note.src = joinAll sd rel ∧ note.dst = joinAll dd rel ∧
        resolve src rel = some e1 ∧ resolve dst rel = some e2 := by
  intro sd dd src dst note hwf hmem
  rw [checkDir_eq_collect] at hmem
  exact collect_resolve (sizeOf src) src (le_refl _) sd dd dst note hwf hmem

theorem checkDir_notes_are_collisions_witness :
    ListingWf [("a", FsEntry.file [0])] ∧
      (⟨joinPath "s" "a", joinPath "d" "a", NoteKind.sizeMismatch⟩ : Note) ∈
        checkDir "s" "d" [("a", FsEntry.file [0])] [("a", FsEntry.file [])] [] ∧
      ∃ rel e1 e2, rel ≠ [] ∧
        (⟨joinPath "s" "a", joinPath "d" "a", NoteKind.sizeMismatch⟩ : Note).src =
          joinAll "s" rel ∧
        (⟨joinPath "s" "a", joinPath "d" "a", NoteKind.sizeMismatch⟩ : Note).dst =
          joinAll "d" rel ∧
        resolve [("a", FsEntry.file [0])] rel = some e1 ∧
        resolve [("a", FsEntry.file [])] rel = some e2 := by
  have hwf := wf_singleton_file "a" [0]
  have heval : checkDir "s" "d" [("a", FsEntry.file [0])] [("a", FsEntry.file [])] [] =
      [⟨joinPath "s" "a", joinPath "d" "a", NoteKind.sizeMismatch⟩] := by
    rw [checkDir_cons_filefile "s" "d" "a" [0] [] [] [("a", FsEntry.file [])] [] rfl,
      checkDir_nil]
    simp
  have hmem : (⟨joinPath "s" "a", joinPath "d" "a", NoteKind.sizeMismatch⟩ : Note) ∈
      checkDir "s" "d" [("a", FsEntry.file [0])] [("a", FsEntry.file [])] [] := by
    rw [heval]
    exact List.mem_singleton.2 rfl
  exact ⟨hwf, hmem, checkDir_notes_are_collisions "s" "d" [("a", FsEntry.file [0])]
    [("a", FsEntry.file [])] _ hwf hmem⟩

/-- Claim C6: for a colliding pair of which exactly one side is a
directory, the walk appends exactly one type-mismatch note, continues with
the remaining entries, and the result does not depend on the contents of
either side (the equation mentions neither the children nor the bytes);
the operation trace of such a pair contains only the two directory
listings of the call itself: no entry is opened or read and no recursion
happens. -/
theorem checkDir_type_mismatch_step :
    ∀ (sd dd name : String) (se de : FsEntry) (rest dst : Listing) (acc : List Note),
      lookupEntry name dst = some de → se.isDir ≠ de.isDir →
      (checkDir sd dd ((name, se) :: rest) dst acc =
        checkDir sd dd rest dst
          (acc ++ [⟨joinPath sd name, joinPath dd name, NoteKind.typeMismatch⟩])) ∧
      (checkDirT sd dd [(name, se)] [(name, de)]).2 =
        [FsOp.readDir dd, FsOp.readDir sd] := by
  intro sd dd name se de rest dst acc hl hty
  cases se with
  | dir sc =>
    cases de with
    | dir dc => simp [FsEntry.isDir] at hty
    | file c2 =>
      have hl' : lookupEntry name [(name, FsEntry.file c2)] = some (FsEntry.file c2) :=
        lookupEntry_head (by simp)
      constructor
      · exact checkDir_cons_dirfile sd dd name sc c2 rest dst acc hl
      · simp only [checkDirT]
        rw [checkEntriesT_cons_dirfile sd dd name sc c2 [] [(name, FsEntry.file c2)] hl',
          checkEntriesT_nil]
  | file c1 =>
    cases de with
    | file c2 => simp [FsEntry.isDir] at hty
    | dir dc =>
      have hl' : lookupEntry name [(name, FsEntry.dir dc)] = some (FsEntry.dir dc) :=
        lookupEntry_head (by simp)
      constructor
      · exact checkDir_cons_filedir sd dd name c1 dc rest dst acc hl
      · simp only [checkDirT]
        rw [checkEntriesT_cons_filedir sd dd name c1 dc [] [(name, FsEntry.dir dc)] hl',
          checkEntriesT_nil]

theorem checkDir_type_mismatch_step_witness :
    lookupEntry "a" [("a", FsEntry.dir [])] = some (FsEntry.dir []) ∧
      (FsEntry.file ([0] : List Nat)).isDir ≠ (FsEntry.dir []).isDir ∧
      checkDir "s" "d" [("a", FsEntry.file [0])] [("a", FsEntry.dir [])] [] =
        checkDir "s" "d" [] [("a", FsEntry.dir [])]
          ([] ++ [⟨joinPath "s" "a", joinPath "d" "a", NoteKind.typeMismatch⟩]) ∧
      (checkDirT "s" "d" [("a", FsEntry.file [0])] [("a", FsEntry.dir [])]).2 =
        [FsOp.readDir "d", FsOp.readDir "s"] := by
  have hl : lookupEntry "a" [("a", FsEntry.dir [])] = some (FsEntry.dir []) := rfl
  have hty : (FsEntry.file ([0] : List Nat)).isDir ≠ (FsEntry.dir []).isDir := by
    simp [FsEntry.isDir]
  have h := checkDir_type_mismatch_step "s" "d" "a" (FsEntry.file [0]) (FsEntry.dir [])
    [] [("a", FsEntry.dir [])] [] hl hty
  exact ⟨hl, hty, h.1, h.2⟩

/-- Claim C7: `IsFileContentIdentical` is reflexive on regular files: two
files with identical byte content compare equal, whatever the common
length is (empty, shorter than one chunk, exactly a chunk, longer).  In
the content model two files with identical bytes are the same list, so
reflexivity is the whole statement. -/
theorem contentIdentical_refl : ∀ c : List Nat, isFileContentIdentical c c = true :=
  contentIdentical_self

/-- Claim C8: a directory listing failure anywhere in the walk aborts the
whole check: the propagated exit status of every listing failure is
`exitStatusOtherErrors` (4); a colliding directory pair whose destination
side can not be listed aborts at once, without processing the remaining
entries; an unreadable root aborts the check; and the unsafe verdict exit
status `exitStatusCopyUnsafe` (3) occurs exactly when the walk completed
and accumulated at least one note, so an I/O failure is distinguishable
from an unsafe verdict at the exit-status level. -/
theorem listing_failure_aborts_with_distinct_status :
    exitStatusOtherErrors ≠ exitStatusCopyUnsafe ∧
      (∀ (sd dd : String) (src dst : ListingE) (notes : List Note) (e : Nat),
        checkEntriesE sd dd src dst notes = Except.error e → e = exitStatusOtherErrors) ∧
      (∀ (sd dd name : String) (sl : Option ListingE) (rest dst : ListingE)
          (notes : List Note),
        lookupEntry name dst = some (FsEntryE.dir none) →
        checkEntriesE sd dd ((name, FsEntryE.dir sl) :: rest) dst notes =
          Except.error exitStatusOtherErrors) ∧
      (∀ (sd dd : String) (srcRoot dstRoot : Option ListingE),
        precopyCheckE sd dd srcRoot none = exitStatusOtherErrors ∧
          precopyCheckE sd dd none dstRoot = exitStatusOtherErrors) ∧
      (∀ (sd dd : String) (src dst : ListingE),
        precopyCheckE sd dd (some src) (some dst) = exitStatusCopyUnsafe ↔
          ∃ notes, checkEntriesE sd dd src dst [] = Except.ok notes ∧ notes ≠ []) := by
  refine ⟨by decide, ?_, ?_, ?_, ?_⟩
  · intro sd dd src dst notes e h
    exact checkEntriesE_error_code (sizeOf src) src (le_refl _) sd dd dst notes e h
  · intro sd dd name sl rest dst notes hl
    exact checkEntriesE_cons_dir_dstfail sd dd name sl rest dst notes hl
  · intro sd dd srcRoot dstRoot
    exact ⟨precopyCheckE_dstroot_fail sd dd srcRoot, precopyCheckE_srcroot_fail sd dd dstRoot⟩
  · intro sd dd src dst
    exact precopyCheckE_unsafe_iff sd dd src dst

theorem listing_failure_aborts_with_distinct_status_witness :
    lookupEntry "a" [("a", FsEntryE.dir none)] = some (FsEntryE.dir none) ∧
      checkEntriesE "s" "d" [("a", FsEntryE.dir (some []))] [("a", FsEntryE.dir none)] [] =
        Except.error exitStatusOtherErrors ∧
      precopyCheckE "s" "d" (some [("a", FsEntryE.file [0])])
        (some [("a", FsEntryE.file [])]) = exitStatusCopyUnsafe := by
  have hl : lookupEntry "a" [("a", FsEntryE.dir none)] = some (FsEntryE.dir none) := rfl
  have h := listing_failure_aborts_with_distinct_status
  refine ⟨hl, h.2.2.1 "s" "d" "a" (some []) [] [("a", FsEntryE.dir none)] [] hl, ?_⟩
  have heval : checkEntriesE "s" "d" [("a", FsEntryE.file [0])] [("a", FsEntryE.file [])] [] =
      Except.ok [⟨joinPath "s" "a", joinPath "d" "a", NoteKind.sizeMismatch⟩] := by
    rw [checkEntriesE_cons_filefile "s" "d" "a" [0] [] [] [("a", FsEntryE.file [])] [] rfl,
      if_pos (by decide : ([0] : List Nat).length ≠ ([] : List Nat).length),
      checkEntriesE_nil]
    simp
  exact (h.2.2.2.2 "s" "d" [("a", FsEntryE.file [0])] [("a", FsEntryE.file [])]).2
    ⟨[⟨joinPath "s" "a", joinPath "d" "a", NoteKind.sizeMismatch⟩], heval, by simp⟩

/-- Claim C9: the whole check is read-only.  The instrumented walk
`checkDirT` computes exactly the notes of `checkDir`, the instrumented
comparator computes exactly `isFileContentIdentical`, every operation in
both traces is non-mutating (only directory listings, stat calls, opens,
reads and closes — never a write, mkdir or remove), and therefore any
filesystem-state semantics in which non-mutating operations leave the
state unchanged maps the whole trace to the identity: the state after the
check equals the state before it. -/
theorem check_is_read_only :
    ∀ (sd dd : String) (src dst : Listing) (p1 p2 : String) (c1 c2 : List Nat),
      (checkDirT sd dd src dst).1 = checkDir sd dd src dst [] ∧
      (isFileContentIdenticalT p1 p2 c1 c2).1 = isFileContentIdentical c1 c2 ∧
      (∀ op ∈ (checkDirT sd dd src dst).2, op.isMutating = false) ∧
      (∀ op ∈ (isFileContentIdenticalT p1 p2 c1 c2).2, op.isMutating = false) ∧
      (∀ (σ : Type) (applyOp : σ → FsOp → σ),
        (∀ (s : σ) (op : FsOp), op.isMutating = false → applyOp s op = s) →
        ∀ s : σ, (checkDirT sd dd src dst).2.foldl applyOp s = s ∧
          (isFileContentIdenticalT p1 p2 c1 c2).2.foldl applyOp s = s) := by
  intro sd dd src dst p1 p2 c1 c2
  refine ⟨checkDirT_fst sd dd src dst, isFileContentIdenticalT_fst p1 p2 c1 c2,
    checkDirT_ops sd dd src dst, isFileContentIdenticalT_ops p1 p2 c1 c2, ?_⟩
  intro σ applyOp happ s
  exact ⟨foldl_of_nonmutating applyOp happ _ (checkDirT_ops sd dd src dst) s,
    foldl_of_nonmutating applyOp happ _ (isFileContentIdenticalT_ops p1 p2 c1 c2) s⟩

theorem check_is_read_only_witness :
    (∀ (s : Nat) (op : FsOp), op.isMutating = false →
      (fun (s : Nat) (_ : FsOp) => s) s op = s) ∧
      (checkDirT "s" "d" [] []).2.foldl (fun (s : Nat) (_ : FsOp) => s) 7 = 7 ∧
      (isFileContentIdenticalT "p" "q" [] []).2.foldl (fun (s : Nat) (_ : FsOp) => s) 7 =
        7 := by
  have happ : ∀ (s : Nat) (op : FsOp), op.isMutating = false →
      (fun (s : Nat) (_ : FsOp) => s) s op = s := fun _ _ _ => rfl
  have h := (check_is_read_only "s" "d" [] [] "p" "q" [] []).2.2.2.2 Nat
    (fun (s : Nat) (_ : FsOp) => s) happ 7
  exact ⟨happ, h.1, h.2⟩

/-- Claim C10: the walk only appends to the note accumulator — the notes
passed in are always a prefix of the notes returned, unchanged and in
order — and at each directory level one colliding pair contributes through
exactly one of the four branches; whenever the pair is not a pair of
directories (so the recursion branch is not taken), its contribution at
that level is at most one note. -/
theorem checkDir_append_only :
    ∀ (sd dd : String) (src dst : Listing) (acc : List Note),
      (checkDir sd dd src dst acc = acc ++ checkDir sd dd src dst []) ∧
      (∀ (name : String) (se : FsEntry) (rest : Listing),
        ∃ contributed : List Note,
          checkDir sd dd ((name, se) :: rest) dst acc =
            checkDir sd dd rest dst (acc ++ contributed) ∧
          ((∀ sc dc, se = FsEntry.dir sc →
              lookupEntry name dst = some (FsEntry.dir dc) → False) →
            contributed.length ≤ 1)) := by
  intro sd dd src dst acc
  refine ⟨checkDir_acc sd dd src dst acc, ?_⟩
  intro name se rest
  refine ⟨pairNotes sd dd name se (lookupEntry name dst), ?_, ?_⟩
  · rw [checkDir_eq_append_collect ((name, se) :: rest) sd dd dst acc,
      checkDir_eq_append_collect rest sd dd dst _, collectNotes_cons]
    simp
  · intro hnd
    cases hl : lookupEntry name dst with
    | none => simp [pairNotes]
    | some de =>
      cases se with
      | dir sc =>
        cases de with
        | dir dc => exact (hnd sc dc rfl hl).elim
        | file c2 => simp [pairNotes]
      | file c1 =>
        cases de with
        | dir dc => simp [pairNotes]
        | file c2 =>
          simp only [pairNotes]
          by_cases hsz : c1.length ≠ c2.length
          · rw [if_pos hsz]
            simp
          · rw [if_neg hsz]
            by_cases hid : isFileContentIdentical c1 c2
            · rw [if_pos hid]
              simp
            · rw [if_neg hid]
              simp

theorem checkDir_append_only_witness :
    ∃ contributed : List Note,
      checkDir "s" "d" [("a", FsEntry.file [0])] [("a", FsEntry.file [])] [] =
        checkDir "s" "d" [] [("a", FsEntry.file [])] ([] ++ contributed) ∧
      contributed.length ≤ 1 := by
  obtain ⟨c, hc1, hc2⟩ := (checkDir_append_only "s" "d" [("a", FsEntry.file [0])]
    [("a", FsEntry.file [])] []).2 "a" (FsEntry.file [0]) []
  exact ⟨c, hc1, hc2 (fun sc dc hse _ => FsEntry.noConfusion hse)⟩

end Precopy
